import Mathlib

/-!
# Override reconciliation model — `react-native-platform-override`

A shallow embedding of `packages/react-native-platform-override/src/Override.ts`:
the five override variants (platform, copy, derived, patch, directory copy),
their serialization to manifest records, deserialization dispatch, validation
and upgrade strategy selection, and `createUpdated` against an override factory.

The supporting modules (`PathUtils`, `Serialized`, `ValidationStrategy`,
`UpgradeStrategy`, `OverrideFactory`) are not part of the sampled sources;
their definitions below are modelled from the specification and are marked as
such in their doc comments. `Override.ts` itself is embedded directly.
-/

/-! ## Path canonicalization (PathUtils model) -/

/-- Modelled from the spec: `PathUtils` canonicalizes file paths across
platform separators. A character is a path separator if it is a forward or
backward slash. -/
def isSep (c : Char) : Bool := c == '/' || c == '\\'

/-- One step of splitting a character list into separator-delimited segments,
consumed by `List.foldr`: a separator starts a new (initially empty) segment,
any other character is prepended to the current first segment. -/
def addChar (c : Char) (segs : List (List Char)) : List (List Char) :=
  if isSep c then [] :: segs
  else
    match segs with
    | [] => [[c]]
    | s :: rest => (c :: s) :: rest

/-- Split a character list at separators, keeping empty segments. -/
def splitRaw (l : List Char) : List (List Char) := l.foldr addChar [[]]

/-- Modelled from the spec: split a path into its non-empty segments,
treating both separator styles alike. -/
def splitSegs (p : String) : List String :=
  ((splitRaw p.data).filter (fun s => !s.isEmpty)).map (fun s => String.mk s)

/-- Modelled from the spec: join segments with the canonical separator,
producing the stable serialization form. -/
def joinSegs (m : List String) : String :=
  String.mk (List.intercalate ['/'] (m.map String.data))

/-- One step of segment canonicalization, consumed by `List.foldl` over a
stack `acc` (most recent segment first): empty and `.` segments are dropped,
`..` pops the most recent non-`..` segment (or accumulates when there is
nothing left to pop), any other segment is pushed. -/
def normStep (acc : List String) (seg : String) : List String :=
  if seg = "" ∨ seg = "." then acc
  else if seg = ".." then
    match acc with
    | [] => [".."]
    | a :: rest => if a = ".." then ".." :: a :: rest else rest
  else seg :: acc

/-- Canonicalize a segment list: resolve `.` and `..`, drop empty segments. -/
def normSegs (l : List String) : List String := (l.foldl normStep []).reverse

/-- Modelled from the spec: `PathUtils.normalizePath` — the stable comparison
key of a path: split at separators, resolve `.`/`..`, rejoin canonically. -/
def normalizePath (p : String) : String := joinSegs (normSegs (splitSegs p))

/-- Modelled from the spec: `PathUtils.unixPath` — the stable serialization
form: the same segments joined with forward slashes, with no `..` resolution. -/
def unixPath (p : String) : String := joinSegs (splitSegs p)

/-- Drop the longest common prefix of two segment lists, returning the two
remainders. -/
def dropCommon : List String → List String → List String × List String
  | a :: as, b :: bs => if a = b then dropCommon as bs else (a :: as, b :: bs)
  | as, bs => (as, bs)

/-- Relative-path decomposition on canonical segment lists: one `..` for every
remaining segment of the start, followed by the remaining segments of the
target. -/
def relSegsAux (f t : List String) : List String :=
  List.replicate (dropCommon f t).1.length ".." ++ (dropCommon f t).2

/-- Modelled from the spec: the segments of the path of `toP` relative to
`fromP`, both canonicalized first (Node `path.relative` followed by splitting
at the platform separator). -/
def relativeSegs (fromP toP : String) : List String :=
  relSegsAux (normSegs (splitSegs fromP)) (normSegs (splitSegs toP))

/-! ## Issue values

TypeScript stores `issueNumber : number | null | 'LEGACY_FIXME'` and the
serialized `issue` field may additionally be absent (`undefined`). `JSIssue`
covers all of these runtime values. -/

/-- A runtime value of the `issue` attribute: absent (`undefined`), `null`,
a ticket number, or the legacy sentinel (`'LEGACY_FIXME'`, the spec's
"legacy/no-ticket"). -/
inductive JSIssue where
  | undef
  | null
  | legacy
  | num (n : Int)
deriving DecidableEq, Repr

/-- JavaScript falsiness of an issue value: `undefined`, `null` and `0` are
falsy, the legacy sentinel (a non-empty string) and non-zero numbers are not. -/
def JSIssue.isFalsy : JSIssue → Bool
  | .undef => true
  | .null => true
  | .legacy => false
  | .num n => n == 0

/-- The coercion `x || null` applied to an issue value. -/
def jsOrNull (i : JSIssue) : JSIssue := if i.isFalsy then .null else i

/-- The coercion `x || undefined` applied to an issue value. -/
def jsOrUndef (i : JSIssue) : JSIssue := if i.isFalsy then .undef else i

/-! ## Strategy descriptors -/

/-- Modelled from the spec: `UpgradeStrategy` — the algorithm descriptor
family returned by `upgradeStrategy()`, identified by constructor name and
path/version parameters (the descriptors are pure; the caller performs I/O). -/
inductive UpgradeStrategy where
  | assumeUpToDate (overrideFile : String)
  | copyFile (overrideFile baseFile : String)
  | copyDirectory (directory baseDirectory : String)
  | threeWayMerge (overrideFile baseFile baseVersion : String)
deriving DecidableEq, Repr

/-- Modelled from the spec: `ValidationStrategy` — the composable checks
returned by `validationStrategies()`, identified by name and by the
path/hash parameters they are constructed with. -/
inductive ValidationStrategy where
  | overrideFileExists (overrideFile : String)
  | baseFileExists (overrideFile baseFile : String)
  | baseUpToDate (overrideFile baseFile baseHash : String)
  | overrideCopyOfBase (overrideFile baseFile : String)
  | overrideDifferentFromBase (overrideFile baseFile : String)
  | overrideDirectoryExists (directory : String)
  | baseDirectoryExists (directory baseDirectory : String)
deriving DecidableEq, Repr

/-- Modelled from the spec: the injected filesystem/hash provider used to
evaluate validation checks — existence, current content hash, and content of
a path. -/
structure FileSystem where
  fileExists : String → Bool
  dirExists : String → Bool
  hash : String → String
  content : String → String

/-- Modelled from the spec: evaluation of one validation check against a
filesystem (§4.3): existence checks consult the filesystem, `baseUpToDate`
recomputes the current hash of the base and compares it with the stored one,
and the content-relationship checks compare downstream and upstream content. -/
def runCheck (fs : FileSystem) : ValidationStrategy → Bool
  | .overrideFileExists f => fs.fileExists f
  | .baseFileExists _ b => fs.fileExists b
  | .baseUpToDate _ b h => fs.hash b == h
  | .overrideCopyOfBase f b => fs.content f == fs.content b
  | .overrideDifferentFromBase f b => fs.content f != fs.content b
  | .overrideDirectoryExists d => fs.dirExists d
  | .baseDirectoryExists _ bd => fs.dirExists bd

/-! ## The Override data model (`Override.ts`) -/

/-- The five override variants of `Override.ts`, with their stored fields:
`platform` stores only the (normalized) override file; `copy`, `derived` and
`patch` store the fields of `BaseFileOverride` (`overrideFile`, `baseFile`,
`baseVersion`, `baseHash`, `issueNumber`); `directoryCopy` stores `directory`,
`baseDirectory`, `baseVersion`, `baseHash`, `issue`. -/
inductive Override where
  | platform (overrideFile : String)
  | copy (overrideFile baseFile baseVersion baseHash : String) (issueNumber : JSIssue)
  | derived (overrideFile baseFile baseVersion baseHash : String) (issueNumber : JSIssue)
  | patch (overrideFile baseFile baseVersion baseHash : String) (issueNumber : JSIssue)
  | directoryCopy (directory baseDirectory baseVersion baseHash : String) (issue : JSIssue)
deriving DecidableEq, Repr

/-- Modelled from the spec: the manifest record shape (`Serialized.Override`,
§6) — a discriminator `type`, optional path fields, and the issue value
(`JSIssue.undef` models an absent field). -/
structure SerializedOverride where
  type : String
  file : Option String
  directory : Option String
  baseFile : Option String
  baseDirectory : Option String
  baseVersion : Option String
  baseHash : Option String
  issue : JSIssue
deriving DecidableEq, Repr

/-- `PlatformOverride`'s constructor: normalizes the file path. -/
def mkPlatformOverride (file : String) : Override :=
  .platform (normalizePath file)

/-- `CopyOverride`'s constructor (via `BaseFileOverride`): normalizes both
paths and stores `args.issue || null`. -/
def mkCopyOverride (file baseFile baseVersion baseHash : String) (issue : JSIssue) : Override :=
  .copy (normalizePath file) (normalizePath baseFile) baseVersion baseHash (jsOrNull issue)

/-- `DerivedOverride`'s constructor (via `BaseFileOverride`): normalizes both
paths and stores `args.issue || null`. -/
def mkDerivedOverride (file baseFile baseVersion baseHash : String) (issue : JSIssue) : Override :=
  .derived (normalizePath file) (normalizePath baseFile) baseVersion baseHash (jsOrNull issue)

/-- `PatchOverride`'s constructor (via `BaseFileOverride`): normalizes both
paths and stores `args.issue || null`. -/
def mkPatchOverride (file baseFile baseVersion baseHash : String) (issue : JSIssue) : Override :=
  .patch (normalizePath file) (normalizePath baseFile) baseVersion baseHash (jsOrNull issue)

/-- `DirectoryCopyOverride`'s constructor: normalizes both directory paths and
stores the issue value unchanged. -/
def mkDirectoryCopyOverride (directory baseDirectory baseVersion baseHash : String)
    (issue : JSIssue) : Override :=
  .directoryCopy (normalizePath directory) (normalizePath baseDirectory) baseVersion baseHash issue

/-- `name()`: the stored override file, respectively directory. -/
def Override.name : Override → String
  | .platform ov => ov
  | .copy ov _ _ _ _ => ov
  | .derived ov _ _ _ _ => ov
  | .patch ov _ _ _ _ => ov
  | .directoryCopy d _ _ _ _ => d

/-- `includesFile(filename)`: file-backed variants compare
`normalizePath(filename)` with the stored override file; the directory variant
checks that the first segment of the path of `filename` relative to the
directory is not a parent reference. -/
def Override.includesFile (o : Override) (filename : String) : Bool :=
  match o with
  | .platform ov => normalizePath filename == ov
  | .copy ov _ _ _ _ => normalizePath filename == ov
  | .derived ov _ _ _ _ => normalizePath filename == ov
  | .patch ov _ _ _ _ => normalizePath filename == ov
  | .directoryCopy d _ _ _ _ => ((relativeSegs d (normalizePath filename)).headD "") != ".."

/-- `serialize()` of each variant: `platform` emits its file; the file-linked
variants emit `type`, `file`, `baseFile`, `baseVersion`, `baseHash` and their
issue (`derived` coerces it with `|| undefined`); `directoryCopy` emits the
shared tag `copy` with `directory`/`baseDirectory` in place of
`file`/`baseFile`. Paths are emitted through `unixPath`. -/
def Override.serialize : Override → SerializedOverride
  | .platform ov =>
      ⟨"platform", some (unixPath ov), none, none, none, none, none, .undef⟩
  | .copy ov bf bv bh iss =>
      ⟨"copy", some (unixPath ov), none, some (unixPath bf), none, some bv, some bh, iss⟩
  | .derived ov bf bv bh iss =>
      ⟨"derived", some (unixPath ov), none, some (unixPath bf), none, some bv, some bh,
        jsOrUndef iss⟩
  | .patch ov bf bv bh iss =>
      ⟨"patch", some (unixPath ov), none, some (unixPath bf), none, some bv, some bh, iss⟩
  | .directoryCopy d bd bv bh iss =>
      ⟨"copy", none, some (unixPath d), none, some (unixPath bd), some bv, some bh, iss⟩

/-- `deserializeOverride`: dispatch on the `type` discriminator; for `copy`,
presence of a `directory` field selects `DirectoryCopyOverride` over
`CopyOverride`. Records missing a required path field (on which the
TypeScript constructor would fault) and unknown discriminators yield `none`. -/
def deserializeOverride (r : SerializedOverride) : Option Override :=
  if r.type = "platform" then
    match r.file with
    | some f => some (mkPlatformOverride f)
    | none => none
  else if r.type = "copy" then
    if r.directory.isSome then
      match r.directory, r.baseDirectory, r.baseVersion, r.baseHash with
      | some d, some bd, some bv, some bh => some (mkDirectoryCopyOverride d bd bv bh r.issue)
      | _, _, _, _ => none
    else
      match r.file, r.baseFile, r.baseVersion, r.baseHash with
      | some f, some bf, some bv, some bh => some (mkCopyOverride f bf bv bh r.issue)
      | _, _, _, _ => none
  else if r.type = "derived" then
    match r.file, r.baseFile, r.baseVersion, r.baseHash with
    | some f, some bf, some bv, some bh => some (mkDerivedOverride f bf bv bh r.issue)
    | _, _, _, _ => none
  else if r.type = "patch" then
    match r.file, r.baseFile, r.baseVersion, r.baseHash with
    | some f, some bf, some bv, some bh => some (mkPatchOverride f bf bv bh r.issue)
    | _, _, _, _ => none
  else none

/-- Modelled from the spec: `OverrideFactory` (§6) — the injected collaborator
that resolves against the current upstream state and returns a freshly pinned
override, or fails with an upstream-resolution error. -/
structure OverrideFactory where
  createPlatformOverride : String → Except String Override
  createCopyOverride : String → String → JSIssue → Except String Override
  createDerivedOverride : String → String → JSIssue → Except String Override
  createPatchOverride : String → String → JSIssue → Except String Override
  createDirectoryCopyOverride : String → String → JSIssue → Except String Override

/-- `createUpdated(factory)`: each variant asks the factory's matching method
for a fresh override, passing its own stored paths and issue (`derived`
coerces the issue with `|| undefined` first). -/
def Override.createUpdated (o : Override) (factory : OverrideFactory) :
    Except String Override :=
  match o with
  | .platform ov => factory.createPlatformOverride ov
  | .copy ov bf _ _ iss => factory.createCopyOverride ov bf iss
  | .derived ov bf _ _ iss => factory.createDerivedOverride ov bf (jsOrUndef iss)
  | .patch ov bf _ _ iss => factory.createPatchOverride ov bf iss
  | .directoryCopy d bd _ _ iss => factory.createDirectoryCopyOverride d bd iss

/-- State-explicit embedding of `createUpdated`: the receiver is threaded
through and returned next to the result, making visible that each method body
only reads the stored fields — the returned receiver is rebuilt from exactly
the fields the body read, and the result comes from the factory alone. -/
def Override.createUpdatedSt (o : Override) (factory : OverrideFactory) :
    Override × Except String Override :=
  match o with
  | .platform ov =>
      (.platform ov, factory.createPlatformOverride ov)
  | .copy ov bf bv bh iss =>
      (.copy ov bf bv bh iss, factory.createCopyOverride ov bf iss)
  | .derived ov bf bv bh iss =>
      (.derived ov bf bv bh iss, factory.createDerivedOverride ov bf (jsOrUndef iss))
  | .patch ov bf bv bh iss =>
      (.patch ov bf bv bh iss, factory.createPatchOverride ov bf iss)
  | .directoryCopy d bd bv bh iss =>
      (.directoryCopy d bd bv bh iss, factory.createDirectoryCopyOverride d bd iss)

/-- `upgradeStrategy()` of each variant. -/
def Override.upgradeStrategy : Override → UpgradeStrategy
  | .platform ov => .assumeUpToDate ov
  | .copy ov bf _ _ _ => .copyFile ov bf
  | .derived ov bf bv _ _ => .threeWayMerge ov bf bv
  | .patch ov bf bv _ _ => .threeWayMerge ov bf bv
  | .directoryCopy d bd _ _ _ => .copyDirectory d bd

/-- `BaseFileOverride.validationStrategies()`: the shared checks of the
file-linked variants. -/
def baseFileValidationStrategies (ov bf bh : String) : List ValidationStrategy :=
  [.baseFileExists ov bf, .overrideFileExists ov, .baseUpToDate ov bf bh]

/-- `validationStrategies()` of each variant: `platform` checks only
existence; `copy`, `derived` and `patch` extend the shared file-linked checks
with their content-relationship check; `directoryCopy` has its own list. -/
def Override.validationStrategies : Override → List ValidationStrategy
  | .platform ov => [.overrideFileExists ov]
  | .copy ov bf _ bh _ =>
      baseFileValidationStrategies ov bf bh ++ [.overrideCopyOfBase ov bf]
  | .derived ov bf _ bh _ =>
      baseFileValidationStrategies ov bf bh ++ [.overrideDifferentFromBase ov bf]
  | .patch ov bf _ bh _ =>
      baseFileValidationStrategies ov bf bh ++ [.overrideDifferentFromBase ov bf]
  | .directoryCopy d bd _ bh _ =>
      [.overrideDirectoryExists d, .baseDirectoryExists d bd,
        .baseUpToDate d bd bh, .overrideCopyOfBase d bd]

/-- The fixed upstream-resolution error signalled by the spec factory. -/
def resolutionError : String := "cannot resolve upstream path"

/-- Modelled from the spec: a canonical `OverrideFactory` over a filesystem
`fs` whose current upstream version is `cv` — each method resolves its
upstream (respectively downstream, for the platform variant) path, taken by
its canonical form, against the filesystem and returns a fresh override of
the matching variant pinned to `cv` and to the current hash of the base, or
fails with an upstream-resolution error. -/
def specFactory (fs : FileSystem) (cv : String) : OverrideFactory :=
  ⟨fun file =>
      if fs.fileExists (normalizePath file) then .ok (mkPlatformOverride file)
      else .error resolutionError,
    fun file base iss =>
      if fs.fileExists (normalizePath base) then
        .ok (mkCopyOverride file base cv (fs.hash (normalizePath base)) iss)
      else .error resolutionError,
    fun file base iss =>
      if fs.fileExists (normalizePath base) then
        .ok (mkDerivedOverride file base cv (fs.hash (normalizePath base)) iss)
      else .error resolutionError,
    fun file base iss =>
      if fs.fileExists (normalizePath base) then
        .ok (mkPatchOverride file base cv (fs.hash (normalizePath base)) iss)
      else .error resolutionError,
    fun dir baseDir iss =>
      if fs.dirExists (normalizePath baseDir) then
        .ok (mkDirectoryCopyOverride dir baseDir cv (fs.hash (normalizePath baseDir)) iss)
      else .error resolutionError⟩

/-! ## Auxiliary predicates for the path lemmas -/

/-- A well-formed path segment: non-empty and free of separator characters
(every segment produced by `splitSegs` has this shape). -/
def goodSeg (s : String) : Prop := s.data ≠ [] ∧ ∀ c ∈ s.data, isSep c = false

/-- A plain segment: not empty, not `.`, not `..` (the segments `normStep`
pushes unconditionally). -/
def plainSeg (s : String) : Prop := s ≠ "" ∧ s ≠ "." ∧ s ≠ ".."

/-- The invariant of the canonicalization stack: plain segments on top of a
run of `..` markers. -/
def normStack (acc : List String) : Prop :=
  ∃ s k, acc = s ++ List.replicate k ".." ∧ ∀ x ∈ s, plainSeg x

/-! ## Lemmas: splitting and joining -/

theorem addChar_ne_nil (c : Char) (segs : List (List Char)) : addChar c segs ≠ [] := by
  cases h : isSep c <;> cases segs <;> simp [addChar, h]

theorem splitRaw_ne_nil (l : List Char) : splitRaw l ≠ [] := by
  induction l with
  | nil => simp [splitRaw]
  | cons c cs ih => exact addChar_ne_nil c (splitRaw cs)

theorem foldr_addChar_plain (s : List Char) (hs : ∀ c ∈ s, isSep c = false)
    (t : List Char) (rest : List (List Char)) :
    s.foldr addChar (t :: rest) = (s ++ t) :: rest := by
  induction s with
  | nil => rfl
  | cons c s' ih =>
    have hc : isSep c = false := hs c (List.mem_cons_self c s')
    have ih' := ih (fun d hd => hs d (List.mem_cons_of_mem c hd))
    show addChar c (List.foldr addChar (t :: rest) s') = ((c :: s') ++ t) :: rest
    rw [ih']
    simp [addChar, hc]

theorem splitRaw_intercalate (L : List (List Char))
    (h : ∀ s ∈ L, s ≠ [] ∧ ∀ c ∈ s, isSep c = false) :
    (splitRaw (List.intercalate ['/'] L)).filter (fun s => !s.isEmpty) = L := by
  induction L with
  | nil => simp [splitRaw, List.intercalate]
  | cons s L' ih =>
    cases L' with
    | nil =>
      have hs := h s (List.mem_cons_self s [])
      have h1 : List.intercalate ['/'] [s] = s := by simp [List.intercalate]
      have h2 : splitRaw s = [s ++ []] := foldr_addChar_plain s hs.2 [] []
      rw [h1, h2]
      have h3 : s.isEmpty = false := by
        cases s with
        | nil => exact absurd rfl hs.1
        | cons a t => rfl
      simp [h3]
    | cons s2 L'' =>
      have hs := h s (List.mem_cons_self s (s2 :: L''))
      have hrest : ∀ x ∈ s2 :: L'', x ≠ [] ∧ ∀ c ∈ x, isSep c = false :=
        fun x hx => h x (List.mem_cons_of_mem s hx)
      have hint : List.intercalate ['/'] (s :: s2 :: L'')
          = s ++ '/' :: List.intercalate ['/'] (s2 :: L'') := by
        simp [List.intercalate, List.intersperse_cons_cons]
      rw [hint]
      have h4 : List.foldr addChar [[]] ('/' :: List.intercalate ['/'] (s2 :: L''))
          = [] :: splitRaw (List.intercalate ['/'] (s2 :: L'')) := by
        show addChar '/' (splitRaw (List.intercalate ['/'] (s2 :: L''))) = _
        simp [addChar, isSep]
      have h5 : splitRaw (s ++ '/' :: List.intercalate ['/'] (s2 :: L''))
          = (s ++ []) :: splitRaw (List.intercalate ['/'] (s2 :: L'')) := by
        show List.foldr addChar [[]] (s ++ '/' :: List.intercalate ['/'] (s2 :: L'')) = _
        rw [List.foldr_append, h4, foldr_addChar_plain s hs.2 [] _]
      rw [h5]
      have h6 : (s ++ []).isEmpty = false := by
        cases s with
        | nil => exact absurd rfl hs.1
        | cons a t => rfl
      simp only [List.filter_cons, h6, Bool.not_false, if_true]
      rw [List.append_nil]
      exact congrArg (s :: ·) (ih hrest)

theorem mem_splitRaw_sepFree (l : List Char) :
    ∀ s ∈ splitRaw l, ∀ c ∈ s, isSep c = false := by
  induction l with
  | nil =>
    intro s hs c hc
    simp [splitRaw] at hs
    subst hs
    simp at hc
  | cons a l' ih =>
    intro s hs c hc
    have hra : splitRaw (a :: l') = addChar a (splitRaw l') := rfl
    rw [hra] at hs
    cases ha : isSep a with
    | true =>
      simp only [addChar, ha, if_true] at hs
      rcases List.mem_cons.mp hs with rfl | hs'
      · simp at hc
      · exact ih s hs' c hc
    | false =>
      rcases hsp : splitRaw l' with _ | ⟨t, rest⟩
      · exact absurd hsp (splitRaw_ne_nil l')
      · simp only [addChar, ha, Bool.false_eq_true, if_false, hsp] at hs
        rcases List.mem_cons.mp hs with rfl | hs'
        · rcases List.mem_cons.mp hc with rfl | hc'
          · exact ha
          · exact ih t (hsp ▸ List.mem_cons_self t rest) c hc'
        · exact ih s (hsp ▸ List.mem_cons_of_mem t hs') c hc

theorem split_join (m : List String) (h : ∀ s ∈ m, goodSeg s) :
    splitSegs (joinSegs m) = m := by
  unfold splitSegs joinSegs
  have hdata : (String.mk (List.intercalate ['/'] (m.map String.data))).data
      = List.intercalate ['/'] (m.map String.data) := rfl
  rw [hdata, splitRaw_intercalate (m.map String.data) ?good]
  case good =>
    intro s hs
    obtain ⟨x, hx, rfl⟩ := List.mem_map.mp hs
    exact ⟨(h x hx).1, (h x hx).2⟩
  rw [List.map_map]
  have hid : (String.mk ∘ String.data) = id := funext fun x => rfl
  rw [hid, List.map_id]

/-! ## Lemmas: segment canonicalization -/

theorem normStep_plain (acc : List String) (seg : String) (h : plainSeg seg) :
    normStep acc seg = seg :: acc := by
  obtain ⟨h1, h2, h3⟩ := h
  rw [normStep.eq_def, if_neg (not_or.mpr ⟨h1, h2⟩), if_neg h3]

theorem normStep_dots (j : Nat) :
    normStep (List.replicate j "..") ".." = List.replicate (j + 1) ".." := by
  rw [normStep.eq_def, if_neg (by decide : ¬((".." : String) = "" ∨ (".." : String) = ".")), if_pos rfl]
  cases j with
  | zero => rfl
  | succ j' => simp [List.replicate_succ]

theorem normStep_stack (acc : List String) (seg : String) (h : normStack acc) :
    normStack (normStep acc seg) := by
  obtain ⟨s, k, rfl, hs⟩ := h
  by_cases hA : seg = "" ∨ seg = "."
  · rw [normStep.eq_def, if_pos hA]
    exact ⟨s, k, rfl, hs⟩
  by_cases hB : seg = ".."
  · rw [normStep.eq_def, if_neg hA, if_pos hB]
    cases s with
    | nil =>
      cases k with
      | zero => exact ⟨[], 1, rfl, by simp⟩
      | succ k' =>
        simp only [List.nil_append, List.replicate_succ, if_true]
        exact ⟨[], k' + 2, by simp [List.replicate_succ], by simp⟩
    | cons b s' =>
      have hb := hs b (List.mem_cons_self b s')
      simp only [List.cons_append]
      rw [if_neg hb.2.2]
      exact ⟨s', k, rfl, fun x hx => hs x (List.mem_cons_of_mem b hx)⟩
  · rw [normStep.eq_def, if_neg hA, if_neg hB]
    refine ⟨seg :: s, k, rfl, ?_⟩
    intro x hx
    rcases List.mem_cons.mp hx with rfl | hx'
    · exact ⟨fun h' => hA (Or.inl h'), fun h' => hA (Or.inr h'), hB⟩
    · exact hs x hx'

theorem foldl_normStep_stack (l : List String) :
    ∀ acc, normStack acc → normStack (l.foldl normStep acc) := by
  induction l with
  | nil => intro acc h; exact h
  | cons a l' ih => intro acc h; exact ih (normStep acc a) (normStep_stack acc a h)

theorem mem_normStep (acc : List String) (seg : String) :
    ∀ x ∈ normStep acc seg, x ∈ acc ∨ x = seg ∨ x = ".." := by
  intro x hx
  by_cases hA : seg = "" ∨ seg = "."
  · rw [normStep.eq_def, if_pos hA] at hx
    exact Or.inl hx
  by_cases hB : seg = ".."
  · cases acc with
    | nil =>
      have hred : normStep [] seg = [".."] := by
        rw [normStep.eq_def, if_neg hA, if_pos hB]
      rw [hred] at hx
      simp at hx
      exact Or.inr (Or.inr hx)
    | cons a rest =>
      have hred : normStep (a :: rest) seg
          = if a = ".." then ".." :: a :: rest else rest := by
        rw [normStep.eq_def, if_neg hA, if_pos hB]
      rw [hred] at hx
      by_cases ha : a = ".."
      · rw [if_pos ha] at hx
        rcases List.mem_cons.mp hx with rfl | hx'
        · exact Or.inr (Or.inr rfl)
        · exact Or.inl hx'
      · rw [if_neg ha] at hx
        exact Or.inl (List.mem_cons_of_mem a hx)
  · rw [normStep.eq_def, if_neg hA, if_neg hB] at hx
    rcases List.mem_cons.mp hx with rfl | hx'
    · exact Or.inr (Or.inl rfl)
    · exact Or.inl hx'

theorem mem_foldl_normStep (l : List String) :
    ∀ acc x, x ∈ l.foldl normStep acc → x ∈ acc ∨ x ∈ l ∨ x = ".." := by
  induction l with
  | nil => intro acc x hx; exact Or.inl hx
  | cons a l' ih =>
    intro acc x hx
    rcases ih (normStep acc a) x hx with h | h | h
    · rcases mem_normStep acc a x h with h' | h' | h'
      · exact Or.inl h'
      · exact Or.inr (Or.inl (h' ▸ List.mem_cons_self a l'))
      · exact Or.inr (Or.inr h')
    · exact Or.inr (Or.inl (List.mem_cons_of_mem a h))
    · exact Or.inr (Or.inr h)

theorem mem_normSegs (l : List String) (x : String) (hx : x ∈ normSegs l) :
    x ∈ l ∨ x = ".." := by
  unfold normSegs at hx
  rw [List.mem_reverse] at hx
  rcases mem_foldl_normStep l [] x hx with h | h
  · simp at h
  · exact h

theorem foldl_normStep_plainList (r : List String) (hr : ∀ x ∈ r, plainSeg x) :
    ∀ acc, r.foldl normStep acc = r.reverse ++ acc := by
  induction r with
  | nil => intro acc; simp
  | cons a r' ih =>
    intro acc
    have ha := hr a (List.mem_cons_self a r')
    have ih' := ih (fun x hx => hr x (List.mem_cons_of_mem a hx))
    show List.foldl normStep (normStep acc a) r' = _
    rw [normStep_plain acc a ha, ih']
    simp

theorem foldl_normStep_dots (k : Nat) :
    ∀ j, (List.replicate k "..").foldl normStep (List.replicate j "..")
      = List.replicate (k + j) ".." := by
  induction k with
  | zero => intro j; simp
  | succ k' ih =>
    intro j
    rw [List.replicate_succ]
    show List.foldl normStep (normStep (List.replicate j "..") "..") (List.replicate k' "..") = _
    rw [normStep_dots j, ih (j + 1)]
    congr 1
    omega

theorem normSegs_eq_shape (l : List String) :
    ∃ (s : List String) (k : Nat), normSegs l = List.replicate k ".." ++ s.reverse ∧ ∀ x ∈ s, plainSeg x := by
  obtain ⟨s, k, heq, hs⟩ := foldl_normStep_stack l [] ⟨[], 0, rfl, by simp⟩
  refine ⟨s, k, ?_, hs⟩
  unfold normSegs
  rw [heq, List.reverse_append, List.reverse_replicate]

theorem normSegs_idem (l : List String) : normSegs (normSegs l) = normSegs l := by
  obtain ⟨s, k, heq, hs⟩ := normSegs_eq_shape l
  rw [heq]
  show ((List.replicate k ".." ++ s.reverse).foldl normStep []).reverse = _
  rw [List.foldl_append]
  have h0 : (List.replicate k "..").foldl normStep ([] : List String)
      = List.replicate k ".." := by
    have := foldl_normStep_dots k 0
    simpa using this
  rw [h0, foldl_normStep_plainList s.reverse
    (fun x hx => hs x (List.mem_reverse.mp hx)) (List.replicate k "..")]
  simp

/-! ## Lemmas: canonical paths round-trip through splitting -/

theorem goodSeg_dotdot : goodSeg ".." := by
  unfold goodSeg
  decide

theorem goodSeg_of_mem_splitSegs (p : String) (s : String) (hs : s ∈ splitSegs p) :
    goodSeg s := by
  unfold splitSegs at hs
  obtain ⟨t, ht, rfl⟩ := List.mem_map.mp hs
  have ht' := List.mem_filter.mp ht
  have hne : t ≠ [] := by
    intro h
    subst h
    simp at ht'
  exact ⟨hne, fun c hc => mem_splitRaw_sepFree p.data t ht'.1 c hc⟩

theorem goodSeg_of_mem_normSegs_splitSegs (p : String) (s : String)
    (hs : s ∈ normSegs (splitSegs p)) : goodSeg s := by
  rcases mem_normSegs (splitSegs p) s hs with h | rfl
  · exact goodSeg_of_mem_splitSegs p s h
  · exact goodSeg_dotdot

theorem splitSegs_normalizePath (p : String) :
    splitSegs (normalizePath p) = normSegs (splitSegs p) :=
  split_join (normSegs (splitSegs p)) (fun s hs => goodSeg_of_mem_normSegs_splitSegs p s hs)

theorem normalizePath_idem (p : String) :
    normalizePath (normalizePath p) = normalizePath p := by
  show joinSegs (normSegs (splitSegs (normalizePath p))) = normalizePath p
  rw [splitSegs_normalizePath, normSegs_idem]
  rfl

theorem unixPath_normalizePath (p : String) :
    unixPath (normalizePath p) = normalizePath p := by
  show joinSegs (splitSegs (normalizePath p)) = normalizePath p
  rw [splitSegs_normalizePath]
  rfl

theorem normalizePath_unixPath_normalizePath (p : String) :
    normalizePath (unixPath (normalizePath p)) = normalizePath p := by
  rw [unixPath_normalizePath, normalizePath_idem]

/-! ## Lemmas: issue coercions and relative paths -/

theorem jsOrNull_idem (i : JSIssue) : jsOrNull (jsOrNull i) = jsOrNull i := by
  cases i with
  | num n => by_cases h : n = 0 <;> simp [jsOrNull, JSIssue.isFalsy, h]
  | undef => rfl
  | null => rfl
  | legacy => rfl

theorem jsOrNull_jsOrUndef_jsOrNull (i : JSIssue) :
    jsOrNull (jsOrUndef (jsOrNull i)) = jsOrNull i := by
  cases i with
  | num n => by_cases h : n = 0 <;> simp [jsOrNull, jsOrUndef, JSIssue.isFalsy, h]
  | undef => rfl
  | null => rfl
  | legacy => rfl

theorem dropCommon_self (l : List String) : dropCommon l l = ([], []) := by
  induction l with
  | nil => rfl
  | cons a as ih => simp [dropCommon, ih]

theorem relativeSegs_normalized_self (p : String) :
    relativeSegs (normalizePath p) (normalizePath (normalizePath p)) = [] := by
  rw [normalizePath_idem]
  unfold relativeSegs relSegsAux
  rw [dropCommon_self]
  simp

/-! ## Lemmas: per-variant serialization round-trips -/

theorem roundtrip_platform (f : String) :
    deserializeOverride (Override.serialize (mkPlatformOverride f))
      = some (mkPlatformOverride f) := by
  show some (mkPlatformOverride (unixPath (normalizePath f))) = some (mkPlatformOverride f)
  unfold mkPlatformOverride
  rw [normalizePath_unixPath_normalizePath]

theorem roundtrip_copy (f bf bv bh : String) (i : JSIssue) :
    deserializeOverride (Override.serialize (mkCopyOverride f bf bv bh i))
      = some (mkCopyOverride f bf bv bh i) := by
  show some (mkCopyOverride (unixPath (normalizePath f)) (unixPath (normalizePath bf)) bv bh
    (jsOrNull i)) = some (mkCopyOverride f bf bv bh i)
  unfold mkCopyOverride
  rw [normalizePath_unixPath_normalizePath, normalizePath_unixPath_normalizePath, jsOrNull_idem]

theorem roundtrip_derived (f bf bv bh : String) (i : JSIssue) :
    deserializeOverride (Override.serialize (mkDerivedOverride f bf bv bh i))
      = some (mkDerivedOverride f bf bv bh i) := by
  show some (mkDerivedOverride (unixPath (normalizePath f)) (unixPath (normalizePath bf)) bv bh
    (jsOrUndef (jsOrNull i))) = some (mkDerivedOverride f bf bv bh i)
  unfold mkDerivedOverride
  rw [normalizePath_unixPath_normalizePath, normalizePath_unixPath_normalizePath,
    jsOrNull_jsOrUndef_jsOrNull]

theorem roundtrip_patch (f bf bv bh : String) (i : JSIssue) :
    deserializeOverride (Override.serialize (mkPatchOverride f bf bv bh i))
      = some (mkPatchOverride f bf bv bh i) := by
  show some (mkPatchOverride (unixPath (normalizePath f)) (unixPath (normalizePath bf)) bv bh
    (jsOrNull i)) = some (mkPatchOverride f bf bv bh i)
  unfold mkPatchOverride
  rw [normalizePath_unixPath_normalizePath, normalizePath_unixPath_normalizePath, jsOrNull_idem]

theorem roundtrip_dircopy (d bd bv bh : String) (i : JSIssue) :
    deserializeOverride (Override.serialize (mkDirectoryCopyOverride d bd bv bh i))
      = some (mkDirectoryCopyOverride d bd bv bh i) := by
  show some (mkDirectoryCopyOverride (unixPath (normalizePath d)) (unixPath (normalizePath bd))
    bv bh i) = some (mkDirectoryCopyOverride d bd bv bh i)
  unfold mkDirectoryCopyOverride
  rw [normalizePath_unixPath_normalizePath, normalizePath_unixPath_normalizePath]

/-! ## Claim theorems -/

/-- C1: for every override of every variant (quantified through the variant
constructors, which produce exactly the reachable override values),
deserializing its serialization returns the identical override — structural
equality, which entails the claimed observational identity of `name()`,
`validationStrategies()` and `upgradeStrategy()` parameters. -/
theorem claim_C1_roundtrip :
    ∀ (f bf bv bh d bd : String) (i j : JSIssue),
      deserializeOverride (Override.serialize (mkPlatformOverride f))
        = some (mkPlatformOverride f) ∧
      deserializeOverride (Override.serialize (mkCopyOverride f bf bv bh i))
        = some (mkCopyOverride f bf bv bh i) ∧
      deserializeOverride (Override.serialize (mkDerivedOverride f bf bv bh i))
        = some (mkDerivedOverride f bf bv bh i) ∧
      deserializeOverride (Override.serialize (mkPatchOverride f bf bv bh i))
        = some (mkPatchOverride f bf bv bh i) ∧
      deserializeOverride (Override.serialize (mkDirectoryCopyOverride d bd bv bh j))
        = some (mkDirectoryCopyOverride d bd bv bh j) :=
  fun f bf bv bh d bd i j =>
    ⟨roundtrip_platform f, roundtrip_copy f bf bv bh i, roundtrip_derived f bf bv bh i,
      roundtrip_patch f bf bv bh i, roundtrip_dircopy d bd bv bh j⟩

/-- C2: deserialization dispatch — `platform`, `derived` and `patch` records
map to their variants; a `copy` record maps to a directory copy exactly when
it carries a `directory` field (even if a `file` field is also present) and
to a file copy otherwise; and serializing a directory copy emits the shared
tag `copy` with `directory`/`baseDirectory` set and `file`/`baseFile` absent. -/
theorem claim_C2_dispatch :
    ∀ (f d bf bd bv bh : String) (i : JSIssue),
      deserializeOverride ⟨"platform", some f, none, none, none, none, none, .undef⟩
        = some (mkPlatformOverride f) ∧
      deserializeOverride ⟨"derived", some f, none, some bf, none, some bv, some bh, i⟩
        = some (mkDerivedOverride f bf bv bh i) ∧
      deserializeOverride ⟨"patch", some f, none, some bf, none, some bv, some bh, i⟩
        = some (mkPatchOverride f bf bv bh i) ∧
      deserializeOverride ⟨"copy", none, some d, none, some bd, some bv, some bh, i⟩
        = some (mkDirectoryCopyOverride d bd bv bh i) ∧
      deserializeOverride ⟨"copy", some f, some d, some bf, some bd, some bv, some bh, i⟩
        = some (mkDirectoryCopyOverride d bd bv bh i) ∧
      deserializeOverride ⟨"copy", some f, none, some bf, none, some bv, some bh, i⟩
        = some (mkCopyOverride f bf bv bh i) ∧
      Override.serialize (.directoryCopy d bd bv bh i)
        = ⟨"copy", none, some (unixPath d), none, some (unixPath bd), some bv, some bh, i⟩ :=
  fun _ _ _ _ _ _ _ => ⟨rfl, rfl, rfl, rfl, rfl, rfl, rfl⟩

/-- C3: `includesFile` — every file-backed variant answers true exactly when
the normalized query path equals its stored normalized override file; the
directory variant answers true exactly when the first segment of the query's
path relative to the directory is not a parent reference, as witnessed on the
spec's own examples for directory `a/b`. -/
theorem claim_C3_includesFile :
    ∀ (ov bf bv bh d bd : String) (i : JSIssue) (p : String),
      Override.includesFile (.platform ov) p = (normalizePath p == ov) ∧
      Override.includesFile (.copy ov bf bv bh i) p = (normalizePath p == ov) ∧
      Override.includesFile (.derived ov bf bv bh i) p = (normalizePath p == ov) ∧
      Override.includesFile (.patch ov bf bv bh i) p = (normalizePath p == ov) ∧
      Override.includesFile (.directoryCopy d bd bv bh i) p
        = ((relativeSegs d (normalizePath p)).headD "" != "..") ∧
      Override.includesFile (mkDirectoryCopyOverride "a/b" bd bv bh i) "a/b/c.txt" = true ∧
      Override.includesFile (mkDirectoryCopyOverride "a/b" bd bv bh i) "a/c/../b/c.txt" = true ∧
      Override.includesFile (mkDirectoryCopyOverride "a/b" bd bv bh i) "a/other.txt" = false :=
  fun _ _ _ _ _ _ _ _ => ⟨rfl, rfl, rfl, rfl, rfl, rfl, rfl, rfl⟩

/-- C4: `validationStrategies()` — platform has exactly the existence check;
copy, derived and patch extend the shared file-linked list
`[baseFileExists, overrideFileExists, baseUpToDate]` (a strict superset) by
`overrideCopyOfBase`, respectively `overrideDifferentFromBase`; the directory
copy list is exactly the four directory checks in order. -/
theorem claim_C4_validationStrategies :
    ∀ (ov bf bv bh d bd : String) (i j : JSIssue),
      Override.validationStrategies (.platform ov) = [.overrideFileExists ov] ∧
      baseFileValidationStrategies ov bf bh
        = [.baseFileExists ov bf, .overrideFileExists ov, .baseUpToDate ov bf bh] ∧
      Override.validationStrategies (.copy ov bf bv bh i)
        = baseFileValidationStrategies ov bf bh ++ [.overrideCopyOfBase ov bf] ∧
      Override.validationStrategies (.derived ov bf bv bh i)
        = baseFileValidationStrategies ov bf bh ++ [.overrideDifferentFromBase ov bf] ∧
      Override.validationStrategies (.patch ov bf bv bh i)
        = baseFileValidationStrategies ov bf bh ++ [.overrideDifferentFromBase ov bf] ∧
      Override.validationStrategies (.directoryCopy d bd bv bh j)
        = [.overrideDirectoryExists d, .baseDirectoryExists d bd, .baseUpToDate d bd bh,
            .overrideCopyOfBase d bd] :=
  fun _ _ _ _ _ _ _ _ => ⟨rfl, rfl, rfl, rfl, rfl, rfl⟩

/-- C5: `upgradeStrategy()` is a pure function of the stored fields returning
the variant-appropriate descriptor: `assumeUpToDate(overrideFile)` for
platform, `copyFile(overrideFile, baseFile)` for copy,
`threeWayMerge(overrideFile, baseFile, baseVersion)` for derived and patch,
`copyDirectory(directory, baseDirectory)` for directory copy. -/
theorem claim_C5_upgradeStrategy :
    ∀ (ov bf bv bh d bd : String) (i j : JSIssue),
      Override.upgradeStrategy (.platform ov) = .assumeUpToDate ov ∧
      Override.upgradeStrategy (.copy ov bf bv bh i) = .copyFile ov bf ∧
      Override.upgradeStrategy (.derived ov bf bv bh i) = .threeWayMerge ov bf bv ∧
      Override.upgradeStrategy (.patch ov bf bv bh i) = .threeWayMerge ov bf bv ∧
      Override.upgradeStrategy (.directoryCopy d bd bv bh j) = .copyDirectory d bd :=
  fun _ _ _ _ _ _ _ _ => ⟨rfl, rfl, rfl, rfl, rfl⟩

/-- C8: `createUpdated` leaves the receiver observationally unchanged — in the
state-explicit embedding the receiver returned by the method body equals the
original override, so its `name()`, `serialize()`, `upgradeStrategy()` and
`validationStrategies()` are unchanged, and the result is exactly the fresh
override produced by the factory, not a mutation of the receiver. -/
theorem claim_C8_immutability :
    ∀ (o : Override) (factory : OverrideFactory),
      (o.createUpdatedSt factory).1 = o ∧
      (o.createUpdatedSt factory).1.name = o.name ∧
      Override.serialize (o.createUpdatedSt factory).1 = Override.serialize o ∧
      Override.upgradeStrategy (o.createUpdatedSt factory).1 = Override.upgradeStrategy o ∧
      Override.validationStrategies (o.createUpdatedSt factory).1
        = Override.validationStrategies o ∧
      (o.createUpdatedSt factory).2 = o.createUpdated factory := by
  intro o factory
  cases o <;> exact ⟨rfl, rfl, rfl, rfl, rfl, rfl⟩

/-- C10: the falsy coercion `args.issue || null` stores `null` for an issue
argument of `0` in every file-linked constructor and on deserialization; a
derived override built with issue `0` serializes with the issue field absent
(`undefined`) and its `createUpdated` passes no issue (`undefined`) to the
factory. -/
theorem claim_C10_zeroIssue :
    ∀ (f bf bv bh : String) (factory : OverrideFactory),
      mkCopyOverride f bf bv bh (.num 0)
        = .copy (normalizePath f) (normalizePath bf) bv bh .null ∧
      mkDerivedOverride f bf bv bh (.num 0)
        = .derived (normalizePath f) (normalizePath bf) bv bh .null ∧
      mkPatchOverride f bf bv bh (.num 0)
        = .patch (normalizePath f) (normalizePath bf) bv bh .null ∧
      deserializeOverride ⟨"derived", some f, none, some bf, none, some bv, some bh, .num 0⟩
        = some (.derived (normalizePath f) (normalizePath bf) bv bh .null) ∧
      Override.serialize (mkDerivedOverride f bf bv bh (.num 0))
        = ⟨"derived", some (unixPath (normalizePath f)), none,
            some (unixPath (normalizePath bf)), none, some bv, some bh, .undef⟩ ∧
      Override.createUpdated (mkDerivedOverride f bf bv bh (.num 0)) factory
        = factory.createDerivedOverride (normalizePath f) (normalizePath bf) .undef :=
  fun _ _ _ _ _ => ⟨rfl, rfl, rfl, rfl, rfl, rfl⟩

/-- C7: the issue attribute of copy, derived and patch overrides is optional —
records with the issue field absent deserialize successfully (storing `null`),
the constructors accept an absent issue the same way, and a present issue is
stored as the given integer (unless `0`, which the falsy coercion turns into
`null`) or as the legacy sentinel. -/
theorem claim_C7_issueOptional :
    ∀ (f bf bv bh : String) (n : Int),
      deserializeOverride ⟨"copy", some f, none, some bf, none, some bv, some bh, .undef⟩
        = some (.copy (normalizePath f) (normalizePath bf) bv bh .null) ∧
      deserializeOverride ⟨"derived", some f, none, some bf, none, some bv, some bh, .undef⟩
        = some (.derived (normalizePath f) (normalizePath bf) bv bh .null) ∧
      deserializeOverride ⟨"patch", some f, none, some bf, none, some bv, some bh, .undef⟩
        = some (.patch (normalizePath f) (normalizePath bf) bv bh .null) ∧
      mkCopyOverride f bf bv bh .undef
        = .copy (normalizePath f) (normalizePath bf) bv bh .null ∧
      mkDerivedOverride f bf bv bh .undef
        = .derived (normalizePath f) (normalizePath bf) bv bh .null ∧
      mkPatchOverride f bf bv bh .undef
        = .patch (normalizePath f) (normalizePath bf) bv bh .null ∧
      mkCopyOverride f bf bv bh .legacy
        = .copy (normalizePath f) (normalizePath bf) bv bh .legacy ∧
      mkCopyOverride f bf bv bh (.num n)
        = .copy (normalizePath f) (normalizePath bf) bv bh
            (if n = 0 then .null else .num n) := by
  intro f bf bv bh n
  refine ⟨rfl, rfl, rfl, rfl, rfl, rfl, rfl, ?_⟩
  by_cases h : n = 0 <;> simp [mkCopyOverride, jsOrNull, JSIssue.isFalsy, h]

/-- C9: every override (quantified through the variant constructors, which
produce exactly the reachable override values) includes its own name: for the
file-backed variants because path normalization is idempotent, and for the
directory variant because the directory's path relative to itself is empty,
whose first segment (the empty string) is not a parent reference. -/
theorem claim_C9_includesOwnName :
    ∀ (f bf bv bh d bd : String) (i j : JSIssue),
      (mkPlatformOverride f).includesFile (mkPlatformOverride f).name = true ∧
      (mkCopyOverride f bf bv bh i).includesFile (mkCopyOverride f bf bv bh i).name = true ∧
      (mkDerivedOverride f bf bv bh i).includesFile
        (mkDerivedOverride f bf bv bh i).name = true ∧
      (mkPatchOverride f bf bv bh i).includesFile (mkPatchOverride f bf bv bh i).name = true ∧
      (mkDirectoryCopyOverride d bd bv bh j).includesFile
        (mkDirectoryCopyOverride d bd bv bh j).name = true := by
  intro f bf bv bh d bd i j
  have hfile : ∀ q : String, (normalizePath (normalizePath q) == normalizePath q) = true := by
    intro q
    rw [normalizePath_idem]
    exact beq_self_eq_true (normalizePath q)
  have hdir : ((relativeSegs (normalizePath d)
      (normalizePath (normalizePath d))).headD "" != "..") = true := by
    rw [relativeSegs_normalized_self]
    rfl
  exact ⟨hfile f, hfile f, hfile f, hfile f, hdir⟩

/-- C6: `createUpdated` is exactly the matching factory method applied to the
override's stored downstream path, base path and issue (hence it fails exactly
when that factory call fails); against the canonical spec factory over a
filesystem `fs` at current version `cv`, a resolvable upstream yields a fresh
override of the same variant re-pinned to `cv` and to the current hash of the
base, an unresolvable one an upstream-resolution error; and for the copy
variant the re-pinned override's `baseUpToDate` check passes against `fs`
while its `overrideCopyOfBase` check passes exactly when downstream content
equals upstream content (as after executing the copy upgrade). -/
theorem claim_C6_createUpdated :
    ∀ (ov bf bv bh d bd : String) (i j : JSIssue) (factory : OverrideFactory)
      (fs : FileSystem) (cv : String),
      Override.createUpdated (.platform ov) factory = factory.createPlatformOverride ov ∧
      Override.createUpdated (.copy ov bf bv bh i) factory
        = factory.createCopyOverride ov bf i ∧
      Override.createUpdated (.derived ov bf bv bh i) factory
        = factory.createDerivedOverride ov bf (jsOrUndef i) ∧
      Override.createUpdated (.patch ov bf bv bh i) factory
        = factory.createPatchOverride ov bf i ∧
      Override.createUpdated (.directoryCopy d bd bv bh j) factory
        = factory.createDirectoryCopyOverride d bd j ∧
      Override.createUpdated (.platform ov) (specFactory fs cv)
        = (if fs.fileExists (normalizePath ov) then .ok (mkPlatformOverride ov)
           else .error resolutionError) ∧
      Override.createUpdated (.copy ov bf bv bh i) (specFactory fs cv)
        = (if fs.fileExists (normalizePath bf) then
             .ok (mkCopyOverride ov bf cv (fs.hash (normalizePath bf)) i)
           else .error resolutionError) ∧
      Override.createUpdated (.derived ov bf bv bh i) (specFactory fs cv)
        = (if fs.fileExists (normalizePath bf) then
             .ok (mkDerivedOverride ov bf cv (fs.hash (normalizePath bf)) (jsOrUndef i))
           else .error resolutionError) ∧
      Override.createUpdated (.patch ov bf bv bh i) (specFactory fs cv)
        = (if fs.fileExists (normalizePath bf) then
             .ok (mkPatchOverride ov bf cv (fs.hash (normalizePath bf)) i)
           else .error resolutionError) ∧
      Override.createUpdated (.directoryCopy d bd bv bh j) (specFactory fs cv)
        = (if fs.dirExists (normalizePath bd) then
             .ok (mkDirectoryCopyOverride d bd cv (fs.hash (normalizePath bd)) j)
           else .error resolutionError) ∧
      Override.validationStrategies (mkCopyOverride ov bf cv (fs.hash (normalizePath bf)) i)
        = [.baseFileExists (normalizePath ov) (normalizePath bf),
            .overrideFileExists (normalizePath ov),
            .baseUpToDate (normalizePath ov) (normalizePath bf) (fs.hash (normalizePath bf)),
            .overrideCopyOfBase (normalizePath ov) (normalizePath bf)] ∧
      runCheck fs (.baseUpToDate (normalizePath ov) (normalizePath bf)
        (fs.hash (normalizePath bf))) = true ∧
      (∀ fs2 : FileSystem,
        runCheck fs2 (.overrideCopyOfBase (normalizePath ov) (normalizePath bf))
          = (fs2.content (normalizePath ov) == fs2.content (normalizePath bf))) := by
  intro ov bf bv bh d bd i j factory fs cv
  refine ⟨rfl, rfl, rfl, rfl, rfl, rfl, rfl, rfl, rfl, rfl, rfl, ?_, fun fs2 => rfl⟩
  exact beq_self_eq_true (fs.hash (normalizePath bf))
